import Mathlib

set_option maxHeartbeats 1000000

/-!
Verification development for the trustbroker-client repository.

The repository is a TypeScript client SDK with several near-duplicate
iterations of one design:
  * `src/src/lib/utilits.ts`  — canonicalization (`canonicalizeBody`),
    `sortKeys`, `signPayload`, `verifySignature` (no try/catch);
  * `src/src/lib/errors.ts`   — error classes, in particular
    `RequestError` with constructor `(message, status?)`;
  * `src/src/index.ts`        — two `TrustBrokerClient` iterations; the
    second (lines 236-375) installs a request interceptor and implements
    `pollForConsent`;
  * `src/unnamed/part_001`    — a `verifySignature` variant wrapped in
    try/catch, and a client whose interceptor signs the request body
    only when a body is present (`createDataRequest` lives here too);
  * `src/unnamed/part_002`    — a client whose `#pollForConsent` has a
    `switch` with explicit APPROVED / in-flight / terminal / default
    branches.

JavaScript values are embedded as follows: JSON-compatible payloads
become the inductive `Payload` (numbers restricted to integers, which is
what every payload in this repository contains); strings are Lean
`String`s; `undefined`-able fields become `Option`; thrown exceptions
become `Except` or explicit error results; wall-clock time in the poll
loop becomes an explicit `Nat` accumulator.

The opaque Node `crypto` primitives (RSA-SHA256 sign/verify) are taken
as function parameters (`rawSign`, `rawVerify`); everything the claims
speak about — which bytes are signed, which headers are attached, which
error escapes — is computed by the repository's own code, which is
modelled faithfully below.
-/

/-- JSON-like payload trees: scalars, ordered sequences, keyed mappings.
JavaScript objects cannot contain duplicate keys; mappings are embedded
as association lists and theorems carry explicit no-duplicate-key
hypotheses where they matter. -/
inductive Payload where
  | null : Payload
  | bool : Bool → Payload
  | num : Int → Payload
  | str : String → Payload
  | arr : List Payload → Payload
  | obj : List (String × Payload) → Payload

/-- Lowercase hexadecimal digit, as produced by JavaScript for
the \uXXXX escapes of JSON.stringify. -/
def hexDigit (n : Nat) : Char :=
  if n < 10 then Char.ofNat (48 + n) else Char.ofNat (87 + n)

/-- Four lowercase hex digits of a code point below 0x10000. -/
def hex4 (n : Nat) : List Char :=
  [hexDigit (n / 4096 % 16), hexDigit (n / 256 % 16), hexDigit (n / 16 % 16), hexDigit (n % 16)]

/-- Character escaping of JSON.stringify (ECMA-262 QuoteJSONString):
quote and backslash get a backslash escape, the five named control
characters get their short escapes, the remaining control characters get
\uXXXX, everything else is emitted verbatim. -/
def escapeChar (c : Char) : List Char :=
  if c = '\"' then ['\\', '\"']
  else if c = '\\' then ['\\', '\\']
  else if c = '\x08' then ['\\', 'b']
  else if c = '\x09' then ['\\', 't']
  else if c = '\x0a' then ['\\', 'n']
  else if c = '\x0c' then ['\\', 'f']
  else if c = '\x0d' then ['\\', 'r']
  else if c.toNat < 32 then '\\' :: 'u' :: hex4 c.toNat
  else [c]

/-- Escape every character of a string body. -/
def escapeList : List Char → List Char
  | [] => []
  | c :: cs => escapeChar c ++ escapeList cs

/-- The JSON string token for `s`: a quoted, escaped rendering,
exactly what `JSON.stringify` produces for a string scalar. -/
def quoteChars (s : String) : List Char :=
  '\"' :: (escapeList s.data ++ ['\"'])

/-- The character for one decimal digit. -/
def digitChar : Nat → Char
  | 0 => '0' | 1 => '1' | 2 => '2' | 3 => '3' | 4 => '4'
  | 5 => '5' | 6 => '6' | 7 => '7' | 8 => '8' | _ => '9'

/-- Decimal digits of a natural number, most significant first. -/
def natChars (n : Nat) : List Char :=
  if h : n < 10 then [digitChar n]
  else
    have : n / 10 < n := Nat.div_lt_self (by omega) (by omega)
    natChars (n / 10) ++ [digitChar (n % 10)]
termination_by n

/-- Decimal rendering of an integer, as JSON.stringify renders the
integral numbers occurring in this repository's payloads. -/
def intChars (n : Int) : List Char :=
  if n < 0 then '-' :: natChars n.natAbs else natChars n.toNat

/-- Comma-joined concatenation, the `.join(',')` of the source. -/
def joinComma : List (List Char) → List Char
  | [] => []
  | [x] => x
  | x :: y :: rest => x ++ (',' :: joinComma (y :: rest))

/-- Key comparison used by `Object.keys(data).sort()`: JavaScript's
default sort on strings is lexicographic order. -/
def keyLe {α : Type} (a b : String × α) : Prop := a.1 ≤ b.1

instance {α : Type} : DecidableRel (@keyLe α) :=
  fun a b => inferInstanceAs (Decidable (a.1 ≤ b.1))

instance {α : Type} : IsTotal (String × α) (@keyLe α) :=
  ⟨fun a b => le_total a.1 b.1⟩

instance {α : Type} : IsTrans (String × α) (@keyLe α) :=
  ⟨fun _ _ _ h h' => le_trans h h'⟩

/-- Sorting an association list by key. Because the comparison reads
only the key, sorting key-value pairs is exactly `Object.keys(..).sort()`
followed by reading each value (JS objects have unique keys). -/
def sortPairs {α : Type} (l : List (String × α)) : List (String × α) :=
  List.insertionSort (@keyLe α) l

/-- Rendering of one canonicalized mapping entry by `canonicalizeBody`
(src/src/lib/utilits.ts line 15): the template literal interpolates the
key RAW, without JSON escaping — `"${key}":${canonicalizeBody(...)}`. -/
def renderEntry (e : String × List Char) : List Char :=
  '\"' :: (e.1.data ++ ('\"' :: (':' :: e.2)))

mutual
/-- Character-level model of `canonicalizeBody`
(src/src/lib/utilits.ts lines 9-19): scalars via JSON.stringify,
arrays comma-joined in order, mappings with keys sorted
lexicographically and interpolated unescaped.  The source sorts keys
first and then renders each value; here entries are rendered first and
then sorted, which produces the same characters because the comparison
reads only the (unchanged) key. -/
def canonChars : Payload → List Char
  | .num n => intChars n
  | .bool false => 'f' :: ['a', 'l', 's', 'e']
  | .str s => quoteChars s
  | .null => 'n' :: ['u', 'l', 'l']
  | .bool true => 't' :: ['r', 'u', 'e']
  | .obj kvs => '\x7b' :: (joinComma ((sortPairs (canonEntries kvs)).map renderEntry) ++ ['\x7d'])
  | .arr xs => '[' :: (joinComma (canonList xs) ++ [']'])

/-- Canonical rendering of each array element, in order. -/
def canonList : List Payload → List (List Char)
  | [] => []
  | x :: xs => canonChars x :: canonList xs

/-- Canonical rendering of each mapping value, keys untouched. -/
def canonEntries : List (String × Payload) → List (String × List Char)
  | [] => []
  | e :: rest => (e.1, canonChars e.2) :: canonEntries rest
end

/-- The canonical string of `canonicalizeBody`. -/
def canonicalizeBody (p : Payload) : String := String.mk (canonChars p)

/-- Rendering of one mapping entry by JSON.stringify: the key is a
proper (escaped, quoted) string token. -/
def renderEntryQ (e : String × List Char) : List Char :=
  quoteChars e.1 ++ (':' :: e.2)

mutual
/-- Character-level model of `JSON.stringify` on payload trees:
entries in insertion order, keys escaped. -/
def stringifyChars : Payload → List Char
  | .str s => quoteChars s
  | .null => 'n' :: ['u', 'l', 'l']
  | .num n => intChars n
  | .bool true => 't' :: ['r', 'u', 'e']
  | .obj kvs => '\x7b' :: (joinComma ((stringifyEntries kvs).map renderEntryQ) ++ ['\x7d'])
  | .bool false => 'f' :: ['a', 'l', 's', 'e']
  | .arr xs => '[' :: (joinComma (stringifyList xs) ++ [']'])

/-- Stringification of each array element, in order. -/
def stringifyList : List Payload → List (List Char)
  | [] => []
  | x :: xs => stringifyChars x :: stringifyList xs

/-- Stringification of each mapping value, keys untouched. -/
def stringifyEntries : List (String × Payload) → List (String × List Char)
  | [] => []
  | e :: rest => (e.1, stringifyChars e.2) :: stringifyEntries rest
end

/-- The string produced by `JSON.stringify`. -/
def jsonStringify (p : Payload) : String := String.mk (stringifyChars p)

mutual
/-- Model of `sortKeys` (src/src/lib/utilits.ts lines 37-46 and
src/unnamed/part_001 lines 9-21): arrays map recursively, objects are
rebuilt with keys sorted and values recursively sorted, scalars pass
through.  The source sorts the keys and then recurses into each value;
recursing first and sorting after is the same list because sorting
reads only the (unchanged) keys. -/
def sortKeys : Payload → Payload
  | .arr xs => .arr (sortKeysList xs)
  | .obj kvs => .obj (sortPairs (sortKeysEntries kvs))
  | p => p

/-- Recursive `sortKeys` over array elements. -/
def sortKeysList : List Payload → List Payload
  | [] => []
  | x :: xs => sortKeys x :: sortKeysList xs

/-- Recursive `sortKeys` over mapping values. -/
def sortKeysEntries : List (String × Payload) → List (String × Payload)
  | [] => []
  | e :: rest => (e.1, sortKeys e.2) :: sortKeysEntries rest
end

/-- The `payload: object | string` union taken by `signPayload` and
`verifySignature` in src/src/lib/utilits.ts. -/
inductive SignInput where
  | str : String → SignInput
  | obj : Payload → SignInput

/-- The canonical text both `signPayload` and `verifySignature` compute
(src/src/lib/utilits.ts lines 52-54 and 71-73): a string payload passes
through unchanged, an object payload becomes
`JSON.stringify(sortKeys(payload))`. -/
def canonicalForSign : SignInput → String
  | .str s => s
  | .obj p => jsonStringify (sortKeys p)

/-- Model of `signPayload(payload, privateKeyPem)`
(src/src/lib/utilits.ts lines 51-59).  `rawSign pem msg` stands for the
opaque Node `crypto.createSign("RSA-SHA256")` pipeline producing the
base64 signature of `msg` under the key `pem`. -/
def signPayload (rawSign : String → String → String)
    (payload : SignInput) (privateKeyPem : String) : String :=
  rawSign privateKeyPem (canonicalForSign payload)

/-- Model of `verifySignature(payload, signature, publicKeyPem)`
(src/src/lib/utilits.ts lines 66-78).  `rawVerify pem msg sig` stands
for the Node `crypto.createVerify` pipeline; it yields `.ok b` for a
verification result and `.error ()` when the primitive throws (Node
throws on unparsable key material).  This variant has NO try/catch, so
whatever `rawVerify` does is the result. -/
def verifySignature (rawVerify : String → String → String → Except Unit Bool)
    (payload : SignInput) (signature publicKeyPem : String) : Except Unit Bool :=
  rawVerify publicKeyPem (canonicalForSign payload) signature

/-- Model of the `verifySignature` variant of src/unnamed/part_001
lines 42-56: the same computation wrapped in try/catch, returning
`false` when anything inside throws. -/
def verifySignature_sdk (rawVerify : String → String → String → Except Unit Bool)
    (payload : SignInput) (signature publicKeyPem : String) : Bool :=
  match rawVerify publicKeyPem (canonicalForSign payload) signature with
  | .ok b => b
  | .error _ => false

/-- An outbound axios request as the interceptors see it: a header map
and an optional body. -/
structure AxiosConfig where
  headers : List (String × String)
  data : Option Payload

/-- JavaScript `headers[k] = v`: overwrite in place or append. -/
def setHeader (hs : List (String × String)) (k v : String) : List (String × String) :=
  if hs.any (fun e => e.1 == k) then hs.map (fun e => if e.1 == k then (k, v) else e)
  else hs ++ [(k, v)]

/-- Header lookup. -/
def getHeader (hs : List (String × String)) (k : String) : Option String :=
  match hs.find? (fun e => e.1 == k) with
  | some e => some e.2
  | none => none

/-- Model of the request interceptor installed by the
`TrustBrokerClient` constructor in src/src/index.ts lines 295-303: it
sets `Client-Id`, then unconditionally sets `Signature` to
`signPayload(this.privateKey, this.clientId)` — note the arguments: the
private key OBJECT is passed in the payload position and the client id
string in the key position, and `config.data` is never consulted.
A Node `KeyObject` has no enumerable properties, so as a payload it
serializes like an (empty) object; it is kept here as an arbitrary
`Payload` parameter. -/
def interceptor_index (rawSign : String → String → String)
    (clientId : String) (privateKeyObj : Payload) (config : AxiosConfig) : AxiosConfig :=
  AxiosConfig.mk
    (setHeader (setHeader config.headers "Client-Id" clientId) "Signature"
      (signPayload rawSign (.obj privateKeyObj) clientId))
    config.data

/-- Model of the request interceptor of src/unnamed/part_001 lines
141-153: sets `Client-Id` always and, only `if (config.data)`, sets
`Signature` to `signPayload(config.data, this.privateKey)`. -/
def interceptor_m2m (rawSign : String → String → String)
    (clientId privateKeyPem : String) (config : AxiosConfig) : AxiosConfig :=
  let hs := setHeader config.headers "Client-Id" clientId
  match config.data with
  | some body =>
      AxiosConfig.mk (setHeader hs "Signature" (signPayload rawSign (.obj body) privateKeyPem))
        config.data
  | none => AxiosConfig.mk hs config.data

/-- The broker's poll response body
(`GET /requests/{requestId}/token`). -/
structure TokenResponse where
  status : String
  providerEndpoint : Option String
  accessToken : Option String
  failureReason : Option String
deriving DecidableEq

/-- The `RequestError` of src/src/lib/errors.ts lines 18-25: its
constructor is `(message, status?)`, so the FIRST argument lands in the
error's `message` and the SECOND in its `status` field. -/
structure RequestError where
  message : String
  status : Option String
deriving DecidableEq

/-- JavaScript `x || d` for an optional string: `undefined` and the
empty string fall back to the default. -/
def jsOrString (x : Option String) (d : String) : String :=
  match x with
  | none => d
  | some s => if s = "" then d else s

/-- What one poll iteration decides after a response arrives: return a
success value, throw a typed error, or sleep and poll again. -/
inductive StepResult where
  | success : Option String → Option String → StepResult
  | failure : RequestError → StepResult
  | sleepRepoll : StepResult
deriving DecidableEq

/-- Status dispatch of `pollForConsent` in src/src/index.ts lines
337-343: APPROVED returns `{ providerEndpoint, accessToken }` as-is
(no presence check); DENIED/FAILED/EXPIRED throws
`new RequestError(data.status, data.failureReason || data.status)`
(status into `message`, reason into `status` — the constructor is
`(message, status?)`); every other status falls through to
`await delay(interval)` and the next iteration. -/
def pollStep_index (r : TokenResponse) : StepResult :=
  if r.status = "APPROVED" then .success r.providerEndpoint r.accessToken
  else if r.status = "DENIED" ∨ r.status = "FAILED" ∨ r.status = "EXPIRED" then
    .failure (RequestError.mk r.status (some (jsOrString r.failureReason r.status)))
  else .sleepRepoll

/-- JavaScript falsiness of an optional string (`!x`): `undefined` and
`""` are falsy. -/
def falsyOpt (x : Option String) : Bool :=
  match x with
  | none => true
  | some s => s == ""

/-- Status `switch` of `#pollForConsent` in src/unnamed/part_002 lines
131-148: APPROVED without endpoint or token throws INVALID_RESPONSE;
AWAITING_CONSENT/INITIATED sleep and continue; DENIED/EXPIRED/FAILED
throw `new TrustBrokerError(failureReason || ..., status)` (status in
the error's `status` field); the `default` branch throws immediately
with the unknown status verbatim as the error's `status`. -/
def pollStep_sdk (r : TokenResponse) : StepResult :=
  if r.status = "APPROVED" then
    if falsyOpt r.providerEndpoint || falsyOpt r.accessToken then
      .failure (RequestError.mk "Server approved request but did not provide token or endpoint."
        (some "INVALID_RESPONSE"))
    else .success r.providerEndpoint r.accessToken
  else if r.status = "AWAITING_CONSENT" ∨ r.status = "INITIATED" then .sleepRepoll
  else if r.status = "DENIED" ∨ r.status = "EXPIRED" ∨ r.status = "FAILED" then
    .failure (RequestError.mk (jsOrString r.failureReason ("Request failed with status: " ++ r.status))
      (some r.status))
  else .failure (RequestError.mk ("Received unknown request status: " ++ r.status) (some r.status))

/-- Outcome of a whole `pollForConsent` run. -/
inductive PollOutcome where
  | approved : Option String → Option String → PollOutcome
  | failed : RequestError → PollOutcome
deriving DecidableEq

/-- Timed simulation of `pollForConsent` (src/src/index.ts lines
323-351) driven by a script of responses with their round-trip times.
One call models one pass through the loop: the `while` condition
`Date.now() - start < timeout` is checked at the top, then the abort
signal, then the query is issued (taking `rtt`), then the status
dispatch runs; an in-flight status sleeps `interval` and recurses.
There is NO deadline check between the response and the sleep — that is
exactly what the source does.  `none` means the script ran out before
the loop decided (a live broker never does).  The returned `Nat` is the
total wall-clock time consumed. -/
def pollForConsent_sim (interval timeout : Nat) (aborted : Nat → Bool) :
    List (TokenResponse × Nat) → Nat → Nat → Option (PollOutcome × Nat)
  | script, elapsed, iter =>
    if elapsed < timeout then
      if aborted iter then
        some (.failed (RequestError.mk "ABORTED" (some "Polling aborted by signal")), elapsed)
      else
        match script with
        | [] => none
        | (r, rtt) :: rest =>
          match pollStep_index r with
          | .success e t => some (.approved e t, elapsed + rtt)
          | .failure err => some (.failed err, elapsed + rtt)
          | .sleepRepoll =>
              pollForConsent_sim interval timeout aborted rest (elapsed + rtt + interval) (iter + 1)
    else some (.failed (RequestError.mk "TIMED_OUT" (some "User consent polling timed out")), elapsed)

/-- Parameters of `createDataRequest` (src/src/index.ts lines 125-133,
src/unnamed/part_001 lines 193-201). -/
structure CreateDataRequestParams where
  providerId : String
  dataOwnerId : String
  schemaId : String
  expiresIn : Option Nat
deriving DecidableEq

/-- The POST /requests body assembled by `createDataRequest`. -/
structure CreateRequestBody where
  providerId : String
  dataOwnerId : String
  schemaId : String
  expiresIn : Nat
deriving DecidableEq

/-- JavaScript `x || d` for an optional number: `undefined` and `0`
are falsy and fall back to the default. -/
def jsOrNat (x : Option Nat) (d : Nat) : Nat :=
  match x with
  | none => d
  | some n => if n = 0 then d else n

/-- Model of the payload construction in `createDataRequest`
(src/src/index.ts lines 134-139): the body always carries
`expiresIn: params.expiresIn || 3600`.  (The field is structurally
present in every body; only its value depends on the input.) -/
def createDataRequestBody (p : CreateDataRequestParams) : CreateRequestBody :=
  CreateRequestBody.mk p.providerId p.dataOwnerId p.schemaId (jsOrNat p.expiresIn 3600)

/-- A concrete stand-in for the opaque signing primitive, used to
instantiate theorems at concrete inputs: the "signature" records the
key and the exact message that was signed. -/
def rawSignDemo : String → String → String := fun pem msg => pem ++ ":" ++ msg

/-- A concrete stand-in for the opaque verifying primitive matching
`rawSignDemo`: the public key "PUB" is paired with the private key
"PRIV", and verification succeeds exactly on that key pair's signature
of the same message. -/
def rawVerifyDemo : String → String → String → Except Unit Bool :=
  fun pem msg sig => Except.ok (sig == ((if pem = "PUB" then "PRIV" else "") ++ ":" ++ msg))

/-- A concrete stand-in for the verifying primitive that models Node's
documented behavior of THROWING on unparsable key material: any key
other than the well-formed "valid-pem" makes the primitive raise. -/
def rawVerifyStrict : String → String → String → Except Unit Bool :=
  fun pem _ _ => if pem = "valid-pem" then Except.ok false else Except.error ()

/-- A small concrete payload used to instantiate theorems. -/
def payloadDemo : Payload := Payload.obj [("b", Payload.null), ("a", Payload.str "v")]

/-- A request carrying no body, like the client's GET calls. -/
def emptyConfig : AxiosConfig := AxiosConfig.mk [] none

/-- A request carrying a body. -/
def bodyConfig : AxiosConfig := AxiosConfig.mk [] (some (Payload.obj [("x", Payload.str "y")]))

/-- A concrete poll script: one in-flight response then a denial, each
taking 2 time units. -/
def wallClockScript : List (TokenResponse × Nat) :=
  [(TokenResponse.mk "AWAITING_CONSENT" none none none, 2),
   (TokenResponse.mk "DENIED" none none none, 2)]

mutual
/-- The relation "same logical payload up to the order in which mapping
keys were inserted": scalars equal, sequences pointwise equivalent in
order, and each mapping equal to a reordering of the other's entries
with recursively equivalent values.  (`mid` carries the pointwise value
equivalence, the `Perm` the reordering.)  This formalizes the claim's
"any permutation of key insertion order", applied recursively. -/
def PermEquiv : Payload → Payload → Prop
  | .null, .null => True
  | .bool a, .bool b => a = b
  | .num a, .num b => a = b
  | .str a, .str b => a = b
  | .arr xs, .arr ys => PermEquivList xs ys
  | .obj kvs, .obj kvs' => ∃ mid, PermEquivEntries kvs mid ∧ mid.Perm kvs'
  | _, _ => False
def PermEquivList : List Payload → List Payload → Prop
  | [], [] => True
  | x :: xs, y :: ys => PermEquiv x y ∧ PermEquivList xs ys
  | _, _ => False
def PermEquivEntries : List (String × Payload) → List (String × Payload) → Prop
  | [], [] => True
  | e :: es, f :: fs => e.1 = f.1 ∧ PermEquiv e.2 f.2 ∧ PermEquivEntries es fs
  | _, _ => False
end

mutual
/-- Well-formedness that every payload built from a JavaScript object
tree has: no mapping contains a duplicate key, recursively. -/
def wellKeyed : Payload → Bool
  | .null => true
  | .bool _ => true
  | .num _ => true
  | .str _ => true
  | .arr xs => wellKeyedList xs
  | .obj kvs => decide ((kvs.map Prod.fst).Nodup) && wellKeyedEntries kvs
def wellKeyedList : List Payload → Bool
  | [] => true
  | x :: xs => wellKeyed x && wellKeyedList xs
def wellKeyedEntries : List (String × Payload) → Bool
  | [] => true
  | e :: rest => wellKeyed e.2 && wellKeyedEntries rest
end


/-- Strict key comparison, used to see that a sorted association list
with pairwise-distinct keys is uniquely determined. -/
def keyLt {α : Type} (a b : String × α) : Prop := a.1 < b.1

instance {α : Type} : IsAntisymm (String × α) (@keyLt α) :=
  ⟨fun _ _ h h' => absurd h' (lt_asymm h)⟩

/-- A payload whose top-level keys and nested mapping keys are out of
order. -/
def pW : Payload := .obj [("b", .obj [("d", .null), ("c", .bool true)]), ("a", .str "x")]

/-- The same logical payload as `pW` with both mappings reordered. -/
def qW : Payload := .obj [("a", .str "x"), ("b", .obj [("c", .bool true), ("d", .null)])]

/-- A key character that survives the unescaped interpolation of
`canonicalizeBody`: anything except the quote, which would terminate
the forged string token early — exactly the character class the C6
counterexample exploits.  Backslashes are harmless in keys: the
rendered key is delimited by the first quote byte after the opening
quote, so it is read back raw. -/
def goodKeyChar (c : Char) : Bool :=
  !(c == '\"')

/-- All characters of a mapping key survive raw interpolation. -/
def goodKey (s : String) : Bool := s.data.all goodKeyChar

mutual
/-- Recursively: every mapping key is quote-free (`goodKey`).  No other
restriction — string scalars, numbers and array order are all handled
faithfully by the escaped rendering and its decoder. -/
def goodPayload : Payload → Bool
  | .null => true
  | .bool _ => true
  | .num _ => true
  | .str _ => true
  | .arr xs => goodPayloadList xs
  | .obj kvs => goodPayloadEntries kvs

/-- Goodness over sequence elements. -/
def goodPayloadList : List Payload → Bool
  | [] => true
  | x :: xs => goodPayload x && goodPayloadList xs

/-- Goodness over mapping entries. -/
def goodPayloadEntries : List (String × Payload) → Bool
  | [] => true
  | e :: es => goodKey e.1 && goodPayload e.2 && goodPayloadEntries es
end

/-- Decoder for the named JSON escapes — the backslash pairs and the
short control escapes of `escapeChar`; the \uXXXX form is handled
separately in `parseStrChars`. -/
def escDecode (e : Char) : Option Char :=
  if e = '\"' then some '\"'
  else if e = '\\' then some '\\'
  else if e = 'b' then some '\x08'
  else if e = 't' then some '\x09'
  else if e = 'n' then some '\x0a'
  else if e = 'f' then some '\x0c'
  else if e = 'r' then some '\x0d'
  else none

/-- Value of one lowercase hexadecimal digit, inverse of `hexDigit`. -/
def unhexDigit (c : Char) : Option Nat :=
  if 48 ≤ c.toNat ∧ c.toNat ≤ 57 then some (c.toNat - 48)
  else if 97 ≤ c.toNat ∧ c.toNat ≤ 102 then some (c.toNat - 87)
  else none

/-- Value of a four-digit hexadecimal code unit, inverse of `hex4`. -/
def unhex4 (a b c d : Char) : Option Nat :=
  match unhexDigit a, unhexDigit b, unhexDigit c, unhexDigit d with
  | some va, some vb, some vc, some vd => some (((va * 16 + vb) * 16 + vc) * 16 + vd)
  | _, _, _, _ => none

/-- Reads a mapping key back from the canonical bytes.
`canonicalizeBody` interpolates the key raw, so the key's characters
run up to the first quote byte after the opening quote; for a
quote-free key this recovers it exactly, backslashes included. -/
def parseKeyChars : List Char → Option (List Char × List Char)
  | [] => none
  | c :: cs =>
    if c = '\"' then some ([], cs)
    else
      match parseKeyChars cs with
      | some (ds, rr) => some (c :: ds, rr)
      | none => none

/-- Reads the body of a JSON string token up to its closing quote,
undoing the escapes of `escapeChar` — the backslash pairs, the named
control escapes, and the \uXXXX code-unit escapes; returns the decoded
characters and the input remaining after the closing quote. -/
def parseStrChars : List Char → Option (List Char × List Char)
  | [] => none
  | c :: cs =>
    if c = '\"' then some ([], cs)
    else if c = '\\' then
      match cs with
      | [] => none
      | e :: cs2 =>
        if e = 'u' then
          match cs2 with
          | h1 :: h2 :: h3 :: h4 :: cs3 =>
            match unhex4 h1 h2 h3 h4 with
            | some n =>
              match parseStrChars cs3 with
              | some (ds, rr) => some (Char.ofNat n :: ds, rr)
              | none => none
            | none => none
          | _ => none
        else
          match escDecode e with
          | some d =>
            match parseStrChars cs2 with
            | some (ds, rr) => some (d :: ds, rr)
            | none => none
          | none => none
    else
      match parseStrChars cs with
      | some (ds, rr) => some (c :: ds, rr)
      | none => none

/-- Splits off the longest leading run of decimal digits. -/
def takeDigits : List Char → List Char × List Char
  | [] => ([], [])
  | c :: cs =>
    if c.isDigit then
      let p := takeDigits cs
      (c :: p.1, p.2)
    else ([], c :: cs)

/-- The value of a most-significant-first digit list. -/
def digitsVal (ds : List Char) : Nat :=
  ds.foldl (fun a c => a * 10 + (c.toNat - 48)) 0

/-- Reads a decimal integer (optional leading minus). -/
def parseNum : List Char → Option (Payload × List Char)
  | [] => none
  | c :: rest =>
    if c = '-' then
      let p := takeDigits rest
      if p.1 = [] then none else some (.num (-(digitsVal p.1 : Int)), p.2)
    else
      let p := takeDigits (c :: rest)
      if p.1 = [] then none else some (.num ((digitsVal p.1 : Int)), p.2)

/-- True when the input does not continue with a decimal digit — the
contexts in which a rendered number can be read back unambiguously. -/
def numSafe : List Char → Bool
  | [] => true
  | c :: _ => !c.isDigit

mutual
/-- A fuel-indexed recursive-descent reader for the grammar
`canonicalizeBody` emits.  It exists to witness that the canonical
rendering of a good payload can be decoded again — the unique-decoding
argument behind the injectivity claim. -/
def parseP : Nat → List Char → Option (Payload × List Char)
  | 0, _ => none
  | fuel + 1, cs =>
    match cs with
    | [] => none
    | c :: rest =>
      if c = 'n' then
        if rest.take 3 = ['u', 'l', 'l'] then some (.null, rest.drop 3) else none
      else if c = 't' then
        if rest.take 3 = ['r', 'u', 'e'] then some (.bool true, rest.drop 3) else none
      else if c = 'f' then
        if rest.take 4 = ['a', 'l', 's', 'e'] then some (.bool false, rest.drop 4) else none
      else if c = '\"' then
        match parseStrChars rest with
        | some (ds, r) => some (.str (String.mk ds), r)
        | none => none
      else if c = '[' then
        if rest.take 1 = [']'] then some (.arr [], rest.drop 1)
        else
          match parseElems fuel rest with
          | some (xs, r) => some (.arr xs, r)
          | none => none
      else if c = '\x7b' then
        if rest.take 1 = ['\x7d'] then some (.obj [], rest.drop 1)
        else
          match parseEntries fuel rest with
          | some (es, r) => some (.obj es, r)
          | none => none
      else parseNum (c :: rest)

/-- Reads the elements of a nonempty array body up to and including the
closing bracket. -/
def parseElems : Nat → List Char → Option (List Payload × List Char)
  | 0, _ => none
  | fuel + 1, cs =>
    match parseP fuel cs with
    | some (x, r) =>
      match r with
      | ',' :: r2 =>
        match parseElems fuel r2 with
        | some (xs, r3) => some (x :: xs, r3)
        | none => none
      | ']' :: r2 => some ([x], r2)
      | _ => none
    | none => none

/-- Reads the entries of a nonempty object body up to and including the
closing brace. -/
def parseEntries : Nat → List Char → Option (List (String × Payload) × List Char)
  | 0, _ => none
  | fuel + 1, cs =>
    match cs with
    | '\"' :: r0 =>
      match parseKeyChars r0 with
      | some (kds, ':' :: r1) =>
        match parseP fuel r1 with
        | some (v, ',' :: r2) =>
          match parseEntries fuel r2 with
          | some (es, r3) => some ((String.mk kds, v) :: es, r3)
          | none => none
        | some (v, '\x7d' :: r2) => some ([(String.mk kds, v)], r2)
        | _ => none
      | _ => none
    | _ => none
end

mutual
/-- Fuel sufficient for `parseP` to decode the rendering of a payload. -/
def fuelNeeded : Payload → Nat
  | .arr xs => 1 + fuelList xs
  | .obj kvs => 1 + fuelEntries kvs
  | _ => 1

/-- Fuel for a list of array elements. -/
def fuelList : List Payload → Nat
  | [] => 0
  | x :: xs => 1 + fuelNeeded x + fuelList xs

/-- Fuel for a list of mapping entries. -/
def fuelEntries : List (String × Payload) → Nat
  | [] => 0
  | e :: es => 1 + fuelNeeded e.2 + fuelEntries es
end

/-- The top-level key list of a mapping payload — a decidable
observation that distinguishes payloads differing in a key. -/
def objKeys : Payload → List String
  | .obj kvs => kvs.map Prod.fst
  | _ => []

/-- A mapping whose single key smuggles quote characters; its raw
interpolation forges two entries. -/
def pColl1 : Payload := .obj [("a\":null,\"b", .null)]

/-- A mapping with two honest keys, canonically identical to `pColl1`
byte for byte. -/
def pColl2 : Payload := .obj [("a", .null), ("b", .null)]

/-- A payload whose mapping keys are out of order, used to instantiate
the injectivity theorem. -/
def pInj : Payload := .obj [("b", .str "x"), ("a", .null)]

/-- The same logical payload as `pInj` with keys inserted in the other
order. -/
def qInj : Payload := .obj [("a", .null), ("b", .str "x")]

/-! ## Helper lemmas -/

theorem pairwise_and_of {α : Type} {R S : α → α → Prop} :
    ∀ {l : List α}, l.Pairwise R → l.Pairwise S → l.Pairwise fun a b => R a b ∧ S a b
  | [], _, _ => .nil
  | _ :: _, .cons h1 t1, .cons h2 t2 =>
      .cons (fun b hb => ⟨h1 b hb, h2 b hb⟩) (pairwise_and_of t1 t2)

theorem sortPairs_eq_of_perm {α : Type} (l₁ l₂ : List (String × α)) (hp : l₁.Perm l₂)
    (hnd : (l₁.map Prod.fst).Nodup) : sortPairs l₁ = sortPairs l₂ := by
  have hs₁ : (sortPairs l₁).Pairwise (@keyLe α) := List.sorted_insertionSort _ l₁
  have hs₂ : (sortPairs l₂).Pairwise (@keyLe α) := List.sorted_insertionSort _ l₂
  have hperm : (sortPairs l₁).Perm (sortPairs l₂) :=
    ((List.perm_insertionSort _ l₁).trans hp).trans (List.perm_insertionSort _ l₂).symm
  have hnd₁ : ((sortPairs l₁).map Prod.fst).Nodup :=
    (((List.perm_insertionSort (@keyLe α) l₁)).map Prod.fst).nodup_iff.mpr hnd
  have hnd₂ : ((sortPairs l₂).map Prod.fst).Nodup :=
    (hperm.map Prod.fst).symm.nodup_iff.mpr hnd₁
  have hne₁ : (sortPairs l₁).Pairwise fun a b => a.1 ≠ b.1 :=
    (List.pairwise_map).mp hnd₁
  have hne₂ : (sortPairs l₂).Pairwise fun a b => a.1 ≠ b.1 :=
    (List.pairwise_map).mp hnd₂
  have hlt₁ : (sortPairs l₁).Sorted (@keyLt α) :=
    (pairwise_and_of hs₁ hne₁).imp fun h => lt_of_le_of_ne h.1 h.2
  have hlt₂ : (sortPairs l₂).Sorted (@keyLt α) :=
    (pairwise_and_of hs₂ hne₂).imp fun h => lt_of_le_of_ne h.1 h.2
  exact List.eq_of_perm_of_sorted hperm hlt₁ hlt₂

theorem canonEntries_eq_map (l : List (String × Payload)) :
    canonEntries l = l.map fun e => (e.1, canonChars e.2) := by
  induction l with
  | nil => simp [canonEntries]
  | cons e rest ih => simp [canonEntries, ih]

mutual
theorem canonChars_permEquiv : ∀ (p q : Payload), wellKeyed p = true → PermEquiv p q →
    canonChars p = canonChars q
  | .null, q, _, he => by cases q <;> simp only [PermEquiv] at he; rfl
  | .bool a, q, _, he => by cases q <;> simp only [PermEquiv] at he; subst he; rfl
  | .num a, q, _, he => by cases q <;> simp only [PermEquiv] at he; subst he; rfl
  | .str a, q, _, he => by cases q <;> simp only [PermEquiv] at he; subst he; rfl
  | .arr xs, q, hw, he => by
      cases q with
      | arr ys =>
        simp only [PermEquiv] at he
        simp only [wellKeyed] at hw
        simp only [canonChars]
        rw [canonList_permEquiv xs ys hw he]
      | null => simp only [PermEquiv] at he
      | bool b => simp only [PermEquiv] at he
      | num b => simp only [PermEquiv] at he
      | str b => simp only [PermEquiv] at he
      | obj kvs => simp only [PermEquiv] at he
  | .obj kvs, q, hw, he => by
      cases q with
      | obj kvs' =>
        simp only [PermEquiv] at he
        obtain ⟨mid, hpe, hperm⟩ := he
        simp only [wellKeyed, Bool.and_eq_true, decide_eq_true_eq] at hw
        obtain ⟨hnd, hwe⟩ := hw
        have h1 : canonEntries kvs = canonEntries mid := canonEntries_permEquiv kvs mid hwe hpe
        have h2 : (canonEntries mid).Perm (canonEntries kvs') := by
          rw [canonEntries_eq_map, canonEntries_eq_map]
          exact hperm.map _
        have hnd' : ((canonEntries kvs).map Prod.fst).Nodup := by
          rw [canonEntries_eq_map]
          simpa [List.map_map, Function.comp] using hnd
        have hs : sortPairs (canonEntries kvs) = sortPairs (canonEntries kvs') :=
          sortPairs_eq_of_perm _ _ (h1 ▸ h2) hnd'
        simp only [canonChars]
        rw [hs]
      | null => simp only [PermEquiv] at he
      | bool b => simp only [PermEquiv] at he
      | num b => simp only [PermEquiv] at he
      | str b => simp only [PermEquiv] at he
      | arr ys => simp only [PermEquiv] at he
termination_by p q _ _ => sizeOf p

theorem canonList_permEquiv : ∀ (xs ys : List Payload), wellKeyedList xs = true →
    PermEquivList xs ys → canonList xs = canonList ys
  | [], m, _, he => by cases m <;> simp only [PermEquivList] at he; simp [canonList]
  | x :: xs, m, hw, he => by
      cases m with
      | nil => simp only [PermEquivList] at he
      | cons y ys =>
        simp only [PermEquivList] at he
        simp only [wellKeyedList, Bool.and_eq_true] at hw
        simp only [canonList]
        rw [canonChars_permEquiv x y hw.1 he.1, canonList_permEquiv xs ys hw.2 he.2]
termination_by xs ys _ _ => sizeOf xs

theorem canonEntries_permEquiv : ∀ (l m : List (String × Payload)),
    wellKeyedEntries l = true → PermEquivEntries l m → canonEntries l = canonEntries m
  | [], m, _, he => by cases m <;> simp only [PermEquivEntries] at he; simp [canonEntries]
  | (k, v) :: es, m, hw, he => by
      cases m with
      | nil => simp only [PermEquivEntries] at he
      | cons f fs =>
        obtain ⟨k2, v2⟩ := f
        simp only [PermEquivEntries] at he
        obtain ⟨hk, hv, hrest⟩ := he
        simp only [wellKeyedEntries, Bool.and_eq_true] at hw
        simp only [canonEntries]
        rw [hk, canonChars_permEquiv v v2 hw.1 hv, canonEntries_permEquiv es fs hw.2 hrest]
termination_by l m _ _ => sizeOf l
end

mutual
theorem permEquiv_refl : ∀ p : Payload, PermEquiv p p
  | .null => by simp [PermEquiv]
  | .bool a => by simp [PermEquiv]
  | .num a => by simp [PermEquiv]
  | .str a => by simp [PermEquiv]
  | .arr xs => by
      simp only [PermEquiv]
      exact permEquivList_refl xs
  | .obj kvs => by
      simp only [PermEquiv]
      exact ⟨kvs, permEquivEntries_refl kvs, List.Perm.refl kvs⟩
termination_by p => sizeOf p

theorem permEquivList_refl : ∀ xs : List Payload, PermEquivList xs xs
  | [] => by simp [PermEquivList]
  | x :: xs => by
      simp only [PermEquivList]
      exact ⟨permEquiv_refl x, permEquivList_refl xs⟩
termination_by xs => sizeOf xs

theorem permEquivEntries_refl : ∀ l : List (String × Payload), PermEquivEntries l l
  | [] => by simp [PermEquivEntries]
  | (k, v) :: es => by
      simp only [PermEquivEntries]
      exact ⟨by simp, permEquiv_refl v, permEquivEntries_refl es⟩
termination_by l => sizeOf l
end

theorem permEquivEntries_nil : PermEquivEntries [] [] := by
  simp [PermEquivEntries]

theorem permEquivEntries_cons {e f : String × Payload} {es fs : List (String × Payload)}
    (h1 : e.1 = f.1) (h2 : PermEquiv e.2 f.2) (h3 : PermEquivEntries es fs) :
    PermEquivEntries (e :: es) (f :: fs) := by
  obtain ⟨k, v⟩ := e
  obtain ⟨k2, v2⟩ := f
  simp only [PermEquivEntries]
  exact ⟨h1, h2, h3⟩

theorem permEquiv_obj {kvs mid kvs2 : List (String × Payload)}
    (h : PermEquivEntries kvs mid) (hp : mid.Perm kvs2) :
    PermEquiv (.obj kvs) (.obj kvs2) := by
  simp only [PermEquiv]
  exact ⟨mid, h, hp⟩


theorem stringMk_data : ∀ s : String, String.mk s.data = s
  | ⟨_⟩ => rfl

theorem digitChar_isDigit (n : Nat) (h : n < 10) : (digitChar n).isDigit = true := by
  interval_cases n <;> decide

theorem digitChar_val (n : Nat) (h : n < 10) : (digitChar n).toNat - 48 = n := by
  interval_cases n <;> decide

theorem natChars_ne_nil (n : Nat) : natChars n ≠ [] := by
  rw [natChars]
  split
  · simp
  · simp

theorem natChars_all_digits (n : Nat) : (natChars n).all Char.isDigit = true := by
  induction n using Nat.strong_induction_on with
  | _ n ih =>
    rw [natChars]
    split
    · rename_i h
      simp [digitChar_isDigit n h]
    · rename_i h
      have h10 : n / 10 < n := Nat.div_lt_self (by omega) (by omega)
      simp [List.all_append, ih _ h10, digitChar_isDigit (n % 10) (by omega)]

theorem digitsVal_natChars (n : Nat) : digitsVal (natChars n) = n := by
  induction n using Nat.strong_induction_on with
  | _ n ih =>
    rw [natChars]
    split
    · rename_i h
      simp only [digitsVal, List.foldl]
      have := digitChar_val n h
      omega
    · rename_i h
      have h10 : n / 10 < n := Nat.div_lt_self (by omega) (by omega)
      have hstep : digitsVal (natChars (n / 10) ++ [digitChar (n % 10)])
          = digitsVal (natChars (n / 10)) * 10 + ((digitChar (n % 10)).toNat - 48) := by
        simp [digitsVal, List.foldl_append]
      rw [hstep, ih _ h10]
      have := digitChar_val (n % 10) (by omega)
      omega

theorem isDigit_ne_special (c : Char) (h : c.isDigit = true) :
    c ≠ 'n' ∧ c ≠ 't' ∧ c ≠ 'f' ∧ c ≠ '\"' ∧ c ≠ '[' ∧ c ≠ '\x7b' ∧ c ≠ '-' ∧
      c ≠ ']' ∧ c ≠ '\x7d' := by
  refine ⟨?_, ?_, ?_, ?_, ?_, ?_, ?_, ?_, ?_⟩ <;>
    (intro hc; subst hc; exact absurd h (by decide))

theorem takeDigits_append : ∀ (ds rest : List Char), ds.all Char.isDigit = true →
    numSafe rest = true → takeDigits (ds ++ rest) = (ds, rest)
  | [], rest, _, hr => by
      cases rest with
      | nil => simp [takeDigits]
      | cons c cs =>
        simp only [numSafe, Bool.not_eq_true'] at hr
        simp [takeDigits, hr]
  | d :: ds, rest, hall, hr => by
      simp only [List.all_cons, Bool.and_eq_true] at hall
      simp [takeDigits, hall.1, takeDigits_append ds rest hall.2 hr]

theorem numSafe_cons {c : Char} (r : List Char) (h : c.isDigit = false) :
    numSafe (c :: r) = true := by
  simp [numSafe, h]

theorem parseStrChars_quote (cs : List Char) : parseStrChars ('\"' :: cs) = some ([], cs) := by
  unfold parseStrChars
  simp

theorem parseStrChars_esc {e d : Char} {cs ds rr : List Char} (hu : ¬(e = 'u'))
    (hd : escDecode e = some d) (hr : parseStrChars cs = some (ds, rr)) :
    parseStrChars ('\\' :: (e :: cs)) = some (d :: ds, rr) := by
  unfold parseStrChars
  simp [hu, hd, hr]

theorem parseStrChars_u {h1 h2 h3 h4 : Char} {n : Nat} {cs ds rr : List Char}
    (hx : unhex4 h1 h2 h3 h4 = some n) (hr : parseStrChars cs = some (ds, rr)) :
    parseStrChars ('\\' :: ('u' :: (h1 :: h2 :: h3 :: h4 :: cs)))
      = some (Char.ofNat n :: ds, rr) := by
  unfold parseStrChars
  simp [hx, hr]

theorem charOfNat_toNat (c : Char) (h : c.toNat < 55296) : Char.ofNat c.toNat = c := by
  have hv : Nat.isValidChar c.toNat := Or.inl h
  unfold Char.ofNat
  rw [dif_pos hv]
  unfold Char.ofNatAux
  obtain ⟨⟨⟨m, hlt⟩⟩, hvalid⟩ := c
  rfl

theorem unhexDigit_hexDigit (n : Nat) (h : n < 16) : unhexDigit (hexDigit n) = some n := by
  interval_cases n <;> decide

theorem unhex4_hex4 (n : Nat) (h : n < 65536) :
    unhex4 (hexDigit (n / 4096 % 16)) (hexDigit (n / 256 % 16)) (hexDigit (n / 16 % 16))
      (hexDigit (n % 16)) = some n := by
  simp only [unhex4, unhexDigit_hexDigit (n / 4096 % 16) (by omega),
    unhexDigit_hexDigit (n / 256 % 16) (by omega), unhexDigit_hexDigit (n / 16 % 16) (by omega),
    unhexDigit_hexDigit (n % 16) (by omega)]
  congr 1
  omega

theorem parseStrChars_lit {c : Char} {cs ds rr : List Char} (h1 : ¬(c = '\"'))
    (h2 : ¬(c = '\\')) (hr : parseStrChars cs = some (ds, rr)) :
    parseStrChars (c :: cs) = some (c :: ds, rr) := by
  unfold parseStrChars
  simp [h1, h2, hr]

theorem parseKey_raw : ∀ (s r : List Char), s.all goodKeyChar = true →
    parseKeyChars (s ++ ('\"' :: r)) = some (s, r)
  | [], r, _ => by
      simp only [List.nil_append]
      unfold parseKeyChars
      simp
  | c :: cs, r, h => by
      simp only [List.all_cons, Bool.and_eq_true] at h
      have h1 : ¬(c = '\"') := by
        intro hc
        subst hc
        simp [goodKeyChar] at h
      have ih := parseKey_raw cs r h.2
      simp only [List.cons_append]
      unfold parseKeyChars
      simp [h1, ih]

theorem parseStr_roundtrip : ∀ (s r : List Char),
    parseStrChars (escapeList s ++ ('\"' :: r)) = some (s, r)
  | [], r => by
      simp only [escapeList, List.nil_append]
      exact parseStrChars_quote r
  | c :: cs, r => by
      have ih := parseStr_roundtrip cs r
      by_cases h1 : c = '\"'
      · subst h1
        have hec : escapeChar '\"' = ['\\', '\"'] := by decide
        simp only [escapeList, hec, List.cons_append, List.append_assoc, List.nil_append]
        exact parseStrChars_esc (by decide) (by decide) ih
      · by_cases h2 : c = '\\'
        · subst h2
          have hec : escapeChar '\\' = ['\\', '\\'] := by decide
          simp only [escapeList, hec, List.cons_append, List.append_assoc, List.nil_append]
          exact parseStrChars_esc (by decide) (by decide) ih
        · by_cases h3 : c = '\x08'
          · subst h3
            have hec : escapeChar '\x08' = ['\\', 'b'] := by decide
            simp only [escapeList, hec, List.cons_append, List.append_assoc, List.nil_append]
            exact parseStrChars_esc (by decide) (by decide) ih
          · by_cases h4 : c = '\x09'
            · subst h4
              have hec : escapeChar '\x09' = ['\\', 't'] := by decide
              simp only [escapeList, hec, List.cons_append, List.append_assoc,
                List.nil_append]
              exact parseStrChars_esc (by decide) (by decide) ih
            · by_cases h5 : c = '\x0a'
              · subst h5
                have hec : escapeChar '\x0a' = ['\\', 'n'] := by decide
                simp only [escapeList, hec, List.cons_append, List.append_assoc,
                  List.nil_append]
                exact parseStrChars_esc (by decide) (by decide) ih
              · by_cases h6 : c = '\x0c'
                · subst h6
                  have hec : escapeChar '\x0c' = ['\\', 'f'] := by decide
                  simp only [escapeList, hec, List.cons_append, List.append_assoc,
                    List.nil_append]
                  exact parseStrChars_esc (by decide) (by decide) ih
                · by_cases h7 : c = '\x0d'
                  · subst h7
                    have hec : escapeChar '\x0d' = ['\\', 'r'] := by decide
                    simp only [escapeList, hec, List.cons_append, List.append_assoc,
                      List.nil_append]
                    exact parseStrChars_esc (by decide) (by decide) ih
                  · by_cases h32 : c.toNat < 32
                    · have hec : escapeChar c = '\\' :: 'u' :: hex4 c.toNat := by
                        simp [escapeChar, h1, h2, h3, h4, h5, h6, h7, h32]
                      have hx := unhex4_hex4 c.toNat (by omega)
                      simp only [escapeList, hec, hex4, List.cons_append, List.append_assoc,
                        List.nil_append]
                      rw [parseStrChars_u hx ih, charOfNat_toNat c (by omega)]
                    · have hec : escapeChar c = [c] := by
                        simp [escapeChar, h1, h2, h3, h4, h5, h6, h7, h32]
                      simp only [escapeList, hec, List.cons_append, List.nil_append]
                      exact parseStrChars_lit h1 h2 ih

theorem parseNum_neg {rest ds r2 : List Char} (h : takeDigits rest = (ds, r2))
    (hne : ds ≠ []) : parseNum ('-' :: rest) = some (.num (-(digitsVal ds : Int)), r2) := by
  simp [parseNum, h, hne]

theorem parseNum_pos {c : Char} {rest ds r2 : List Char} (hc : ¬(c = '-'))
    (h : takeDigits (c :: rest) = (ds, r2)) (hne : ds ≠ []) :
    parseNum (c :: rest) = some (.num ((digitsVal ds : Int)), r2) := by
  simp [parseNum, hc, h, hne]

theorem parseP_null (fuel : Nat) (rest : List Char) :
    parseP (fuel + 1) ('n' :: 'u' :: 'l' :: 'l' :: rest) = some (.null, rest) := by
  unfold parseP
  simp

theorem parseP_true (fuel : Nat) (rest : List Char) :
    parseP (fuel + 1) ('t' :: 'r' :: 'u' :: 'e' :: rest) = some (.bool true, rest) := by
  unfold parseP
  simp

theorem parseP_false (fuel : Nat) (rest : List Char) :
    parseP (fuel + 1) ('f' :: 'a' :: 'l' :: 's' :: 'e' :: rest) = some (.bool false, rest) := by
  unfold parseP
  simp

theorem parseP_str {fuel : Nat} {r0 ds r : List Char} (h : parseStrChars r0 = some (ds, r)) :
    parseP (fuel + 1) ('\"' :: r0) = some (.str (String.mk ds), r) := by
  unfold parseP
  simp [h]

theorem parseP_arr_nil (fuel : Nat) (rest : List Char) :
    parseP (fuel + 1) ('[' :: ']' :: rest) = some (.arr [], rest) := by
  unfold parseP
  simp

theorem parseP_arr {fuel : Nat} {r0 r : List Char} {xs : List Payload}
    (hhead : r0.take 1 ≠ [']']) (h : parseElems fuel r0 = some (xs, r)) :
    parseP (fuel + 1) ('[' :: r0) = some (.arr xs, r) := by
  unfold parseP
  simp [hhead, h]

theorem parseP_obj_nil (fuel : Nat) (rest : List Char) :
    parseP (fuel + 1) ('\x7b' :: '\x7d' :: rest) = some (.obj [], rest) := by
  unfold parseP
  simp

theorem parseP_obj {fuel : Nat} {r0 r : List Char} {es : List (String × Payload)}
    (hhead : r0.take 1 ≠ ['\x7d']) (h : parseEntries fuel r0 = some (es, r)) :
    parseP (fuel + 1) ('\x7b' :: r0) = some (.obj es, r) := by
  unfold parseP
  simp [hhead, h]

theorem parseP_num {fuel : Nat} {c : Char} {rest : List Char}
    (hn : ¬(c = 'n')) (ht : ¬(c = 't')) (hf : ¬(c = 'f')) (hq : ¬(c = '\"'))
    (hb : ¬(c = '[')) (ho : ¬(c = '\x7b')) :
    parseP (fuel + 1) (c :: rest) = parseNum (c :: rest) := by
  unfold parseP
  simp [hn, ht, hf, hq, hb, ho]

theorem parseElems_last {fuel : Nat} {cs r2 : List Char} {x : Payload}
    (h : parseP fuel cs = some (x, ']' :: r2)) : parseElems (fuel + 1) cs = some ([x], r2) := by
  unfold parseElems
  simp [h]

theorem parseElems_cons {fuel : Nat} {cs r2 r3 : List Char} {x : Payload} {xs : List Payload}
    (h : parseP fuel cs = some (x, ',' :: r2)) (h2 : parseElems fuel r2 = some (xs, r3)) :
    parseElems (fuel + 1) cs = some (x :: xs, r3) := by
  unfold parseElems
  simp [h, h2]

theorem parseEntries_last {fuel : Nat} {r0 r1 r2 kds : List Char} {v : Payload}
    (hk : parseKeyChars r0 = some (kds, ':' :: r1))
    (hv : parseP fuel r1 = some (v, '\x7d' :: r2)) :
    parseEntries (fuel + 1) ('\"' :: r0) = some ([(String.mk kds, v)], r2) := by
  unfold parseEntries
  simp [hk, hv]

theorem parseEntries_cons {fuel : Nat} {r0 r1 r2 r3 kds : List Char} {v : Payload}
    {es : List (String × Payload)}
    (hk : parseKeyChars r0 = some (kds, ':' :: r1))
    (hv : parseP fuel r1 = some (v, ',' :: r2))
    (hrest : parseEntries fuel r2 = some (es, r3)) :
    parseEntries (fuel + 1) ('\"' :: r0) = some ((String.mk kds, v) :: es, r3) := by
  unfold parseEntries
  simp [hk, hv, hrest]

theorem fuelNeeded_pos (p : Payload) : 1 ≤ fuelNeeded p := by
  cases p <;> simp [fuelNeeded]

theorem canonChars_head (p : Payload) :
    ∃ c cs, canonChars p = c :: cs ∧ ¬(c = ']') ∧ ¬(c = '\x7d') := by
  cases p with
  | null => exact ⟨'n', ['u', 'l', 'l'], by simp [canonChars], by decide, by decide⟩
  | bool b =>
    cases b with
    | false => exact ⟨'f', ['a', 'l', 's', 'e'], by simp [canonChars], by decide, by decide⟩
    | true => exact ⟨'t', ['r', 'u', 'e'], by simp [canonChars], by decide, by decide⟩
  | num n =>
    by_cases hn : n < 0
    · exact ⟨'-', natChars n.natAbs, by simp [canonChars, intChars, hn], by decide, by decide⟩
    · obtain ⟨d, ds, hds⟩ : ∃ d ds, natChars n.toNat = d :: ds := by
        cases hh : natChars n.toNat with
        | nil => exact absurd hh (natChars_ne_nil _)
        | cons d ds => exact ⟨d, ds, rfl⟩
      have hdig : d.isDigit = true := by
        have hall := natChars_all_digits n.toNat
        rw [hds] at hall
        simp only [List.all_cons, Bool.and_eq_true] at hall
        exact hall.1
      have hspec := isDigit_ne_special d hdig
      exact ⟨d, ds, by simp [canonChars, intChars, hn, hds], hspec.2.2.2.2.2.2.2.1,
        hspec.2.2.2.2.2.2.2.2⟩
  | str s =>
    exact ⟨'\"', escapeList s.data ++ ['\"'], by simp [canonChars, quoteChars], by decide,
      by decide⟩
  | arr xs =>
    exact ⟨'[', joinComma (canonList xs) ++ [']'], by simp [canonChars], by decide, by decide⟩
  | obj kvs =>
    exact ⟨'\x7b', joinComma ((sortPairs (canonEntries kvs)).map renderEntry) ++ ['\x7d'],
      by simp [canonChars], by decide, by decide⟩

theorem joinComma_cons_head (a : List Char) (ls : List (List Char)) :
    ∃ t, joinComma (a :: ls) = a ++ t := by
  cases ls with
  | nil => exact ⟨[], by simp [joinComma]⟩
  | cons b ls2 => exact ⟨',' :: joinComma (b :: ls2), by simp [joinComma]⟩

theorem orderedInsert_map_snd {α β : Type} (g : α → β) (a : String × α) :
    ∀ l : List (String × α),
      List.orderedInsert (@keyLe β) (a.1, g a.2) (l.map (fun e => (e.1, g e.2)))
        = (List.orderedInsert (@keyLe α) a l).map (fun e => (e.1, g e.2))
  | [] => by simp
  | b :: l => by
      by_cases h : a.1 ≤ b.1
      · simp [List.orderedInsert, keyLe, h]
      · simp [List.orderedInsert, keyLe, h, orderedInsert_map_snd g a l]

theorem sortPairs_map_snd {α β : Type} (g : α → β) :
    ∀ l : List (String × α),
      sortPairs (l.map (fun e => (e.1, g e.2))) = (sortPairs l).map (fun e => (e.1, g e.2))
  | [] => by simp [sortPairs]
  | a :: l => by
      simp only [List.map_cons, sortPairs, List.insertionSort]
      rw [show List.insertionSort (@keyLe β) (l.map (fun e => (e.1, g e.2)))
            = sortPairs (l.map (fun e => (e.1, g e.2))) from rfl,
          sortPairs_map_snd g l]
      exact orderedInsert_map_snd g a (List.insertionSort (@keyLe α) l)

theorem sortKeysEntries_eq_map (l : List (String × Payload)) :
    sortKeysEntries l = l.map fun e => (e.1, sortKeys e.2) := by
  induction l with
  | nil => simp [sortKeysEntries]
  | cons e rest ih => simp [sortKeysEntries, ih]

theorem fuelEntries_perm {l l' : List (String × Payload)} (hp : l.Perm l') :
    fuelEntries l = fuelEntries l' := by
  induction hp with
  | nil => rfl
  | cons x _ ih => simp [fuelEntries, ih]
  | swap x y l =>
    simp only [fuelEntries]
    omega
  | trans _ _ ih1 ih2 => exact ih1.trans ih2

theorem goodPayloadEntries_all (l : List (String × Payload)) :
    goodPayloadEntries l = l.all fun e => goodKey e.1 && goodPayload e.2 := by
  induction l with
  | nil => simp [goodPayloadEntries]
  | cons e rest ih => simp [goodPayloadEntries, ih, Bool.and_assoc]

theorem goodPayloadEntries_perm {l l' : List (String × Payload)} (hp : l.Perm l')
    (hg : goodPayloadEntries l = true) : goodPayloadEntries l' = true := by
  rw [goodPayloadEntries_all] at hg ⊢
  rw [List.all_eq_true] at hg ⊢
  intro e he
  exact hg e (hp.mem_iff.mpr he)

theorem natChars_head_digit (n : Nat) :
    ∃ d ds, natChars n = d :: ds ∧ d.isDigit = true := by
  obtain ⟨d, ds, hds⟩ : ∃ d ds, natChars n = d :: ds := by
    cases hh : natChars n with
    | nil => exact absurd hh (natChars_ne_nil _)
    | cons a b => exact ⟨a, b, rfl⟩
  have hall := natChars_all_digits n
  rw [hds] at hall
  simp only [List.all_cons, Bool.and_eq_true] at hall
  exact ⟨d, ds, hds, hall.1⟩

mutual
theorem parseP_canon : ∀ (fuel : Nat) (p : Payload) (rest : List Char),
    goodPayload p = true → fuelNeeded p ≤ fuel → numSafe rest = true →
    parseP fuel (canonChars p ++ rest) = some (sortKeys p, rest)
  | 0, p, _ => by
      intro _ hf _
      have := fuelNeeded_pos p
      omega
  | fuel + 1, p, rest => by
      intro hg hf hns
      cases p with
      | null =>
        simp only [canonChars, List.cons_append, List.nil_append]
        rw [parseP_null]
        simp [sortKeys]
      | bool b =>
        cases b with
        | true =>
          simp only [canonChars, List.cons_append, List.nil_append]
          rw [parseP_true]
          simp [sortKeys]
        | false =>
          simp only [canonChars, List.cons_append, List.nil_append]
          rw [parseP_false]
          simp [sortKeys]
      | num n =>
        by_cases hn : n < 0
        · simp only [canonChars, intChars, if_pos hn, List.cons_append]
          rw [parseP_num (by decide) (by decide) (by decide) (by decide) (by decide) (by decide)]
          have htd : takeDigits (natChars n.natAbs ++ rest) = (natChars n.natAbs, rest) :=
            takeDigits_append _ _ (natChars_all_digits _) hns
          rw [parseNum_neg htd (natChars_ne_nil _)]
          have hval : -((digitsVal (natChars n.natAbs) : Nat) : Int) = n := by
            rw [digitsVal_natChars]
            omega
          rw [hval]
          simp [sortKeys]
        · obtain ⟨d, ds, hds, hdig⟩ := natChars_head_digit n.toNat
          have hspec := isDigit_ne_special d hdig
          simp only [canonChars, intChars, if_neg hn, hds, List.cons_append]
          rw [parseP_num hspec.1 hspec.2.1 hspec.2.2.1 hspec.2.2.2.1 hspec.2.2.2.2.1
            hspec.2.2.2.2.2.1]
          have htd : takeDigits ((d :: ds) ++ rest) = (d :: ds, rest) := by
            rw [← hds]
            exact takeDigits_append _ _ (natChars_all_digits _) hns
          simp only [List.cons_append] at htd
          rw [parseNum_pos hspec.2.2.2.2.2.2.1 htd (by simp)]
          have hval : ((digitsVal (d :: ds) : Nat) : Int) = n := by
            rw [← hds, digitsVal_natChars]
            omega
          rw [hval]
          simp [sortKeys]
      | str s =>
        simp only [canonChars, quoteChars, List.cons_append, List.append_assoc,
          List.nil_append]
        rw [parseP_str (parseStr_roundtrip s.data rest)]
        simp [sortKeys, stringMk_data]
      | arr xs =>
        cases xs with
        | nil =>
          simp only [canonChars, canonList, joinComma, List.nil_append, List.cons_append]
          rw [parseP_arr_nil]
          simp [sortKeys, sortKeysList]
        | cons x xs2 =>
          have hgl : goodPayloadList (x :: xs2) = true := by simpa [goodPayload] using hg
          have hfl : fuelList (x :: xs2) ≤ fuel := by
            simp only [fuelNeeded] at hf
            omega
          have helems := parseElems_canon fuel (x :: xs2) rest (by simp) hgl hfl
          obtain ⟨c0, cs0, hc0, hne1, _⟩ := canonChars_head x
          have hhead : (joinComma (canonList (x :: xs2)) ++ (']' :: rest)).take 1 ≠ [']'] := by
            obtain ⟨t, ht⟩ := joinComma_cons_head (canonChars x) (canonList xs2)
            simp only [canonList]
            rw [ht, hc0]
            simp [List.take, hne1]
          simp only [canonChars, List.cons_append, List.append_assoc, List.nil_append]
          rw [parseP_arr hhead helems]
          simp [sortKeys]
      | obj kvs =>
        cases kvs with
        | nil =>
          have hsp : sortPairs (canonEntries ([] : List (String × Payload))) = [] := by
            simp [canonEntries, sortPairs]
          simp only [canonChars, hsp, List.map_nil, joinComma, List.nil_append,
            List.cons_append]
          rw [parseP_obj_nil]
          have : sortPairs (sortKeysEntries ([] : List (String × Payload))) = [] := by
            simp [sortKeysEntries, sortPairs]
          simp [sortKeys, this]
        | cons e kvs2 =>
          have hcomm : sortPairs (canonEntries (e :: kvs2))
              = canonEntries (sortPairs (e :: kvs2)) := by
            rw [canonEntries_eq_map, sortPairs_map_snd, ← canonEntries_eq_map]
          have hperm := List.perm_insertionSort (@keyLe Payload) (e :: kvs2)
          have hne : sortPairs (e :: kvs2) ≠ [] := by
            intro h0
            have hlen := hperm.length_eq
            rw [show List.insertionSort (@keyLe Payload) (e :: kvs2)
              = sortPairs (e :: kvs2) from rfl, h0] at hlen
            simp at hlen
          obtain ⟨e2, l2, hl2⟩ : ∃ e2 l2, sortPairs (e :: kvs2) = e2 :: l2 := by
            cases hh : sortPairs (e :: kvs2) with
            | nil => exact absurd hh hne
            | cons a b => exact ⟨a, b, rfl⟩
          have hgood : goodPayloadEntries (e :: kvs2) = true := by
            simpa [goodPayload] using hg
          have hge : goodPayloadEntries (sortPairs (e :: kvs2)) = true :=
            goodPayloadEntries_perm
              (show (e :: kvs2).Perm (sortPairs (e :: kvs2)) from hperm.symm) hgood
          have hfe : fuelEntries (sortPairs (e :: kvs2)) ≤ fuel := by
            rw [fuelEntries_perm
              (show (sortPairs (e :: kvs2)).Perm (e :: kvs2) from hperm)]
            simp only [fuelNeeded] at hf
            omega
          have hentries := parseEntries_canon fuel (sortPairs (e :: kvs2)) rest hne hge hfe
          have hconsE : canonEntries (sortPairs (e :: kvs2))
              = (e2.1, canonChars e2.2) :: canonEntries l2 := by
            rw [hl2]
            cases e2 with
            | mk k2 v2 => simp [canonEntries]
          have hhead : (joinComma ((canonEntries (sortPairs (e :: kvs2))).map renderEntry)
              ++ ('\x7d' :: rest)).take 1 ≠ ['\x7d'] := by
            rw [hconsE]
            simp only [List.map_cons]
            obtain ⟨t, ht⟩ := joinComma_cons_head (renderEntry (e2.1, canonChars e2.2))
              ((canonEntries l2).map renderEntry)
            rw [ht]
            simp [renderEntry, List.take]
          simp only [canonChars, List.cons_append, List.append_assoc, List.nil_append, hcomm]
          rw [parseP_obj hhead hentries]
          have hcomm2 : sortKeysEntries (sortPairs (e :: kvs2))
              = sortPairs (sortKeysEntries (e :: kvs2)) := by
            rw [sortKeysEntries_eq_map, ← sortPairs_map_snd, ← sortKeysEntries_eq_map]
          simp [sortKeys, hcomm2]
termination_by fuel _ _ => fuel

theorem parseElems_canon : ∀ (fuel : Nat) (xs : List Payload) (rest : List Char),
    xs ≠ [] → goodPayloadList xs = true → fuelList xs ≤ fuel →
    parseElems fuel (joinComma (canonList xs) ++ (']' :: rest)) = some (sortKeysList xs, rest)
  | 0, xs, rest => by
      intro hne hg hf
      cases xs with
      | nil => exact absurd rfl hne
      | cons x xs2 =>
        simp only [fuelList] at hf
        have := fuelNeeded_pos x
        omega
  | fuel + 1, xs, rest => by
      intro hne hg hf
      cases xs with
      | nil => exact absurd rfl hne
      | cons x xs2 =>
        simp only [goodPayloadList, Bool.and_eq_true] at hg
        simp only [fuelList] at hf
        cases xs2 with
        | nil =>
          simp only [canonList, joinComma]
          have h1 := parseP_canon fuel x (']' :: rest) hg.1 (by omega)
            (numSafe_cons rest (by decide))
          rw [parseElems_last h1]
          simp [sortKeysList]
        | cons y ys =>
          simp only [canonList, joinComma, List.append_assoc, List.cons_append]
          have h1 := parseP_canon fuel x
            (',' :: (joinComma (canonChars y :: canonList ys) ++ (']' :: rest))) hg.1
            (by omega) (numSafe_cons _ (by decide))
          have h2 := parseElems_canon fuel (y :: ys) rest (by simp) hg.2 (by
            simp only [fuelList] at hf ⊢
            have := fuelNeeded_pos x
            omega)
          simp only [canonList] at h2
          rw [parseElems_cons h1 h2]
          simp [sortKeysList]
termination_by fuel _ _ => fuel

theorem parseEntries_canon : ∀ (fuel : Nat) (l : List (String × Payload)) (rest : List Char),
    l ≠ [] → goodPayloadEntries l = true → fuelEntries l ≤ fuel →
    parseEntries fuel (joinComma ((canonEntries l).map renderEntry) ++ ('\x7d' :: rest))
      = some (sortKeysEntries l, rest)
  | 0, l, rest => by
      intro hne hg hf
      cases l with
      | nil => exact absurd rfl hne
      | cons e l2 =>
        simp only [fuelEntries] at hf
        have := fuelNeeded_pos e.2
        omega
  | fuel + 1, l, rest => by
      intro hne hg hf
      cases l with
      | nil => exact absurd rfl hne
      | cons e l2 =>
        obtain ⟨k, v⟩ := e
        simp only [goodPayloadEntries, Bool.and_eq_true] at hg
        obtain ⟨⟨hk, hv⟩, hl2⟩ := hg
        simp only [fuelEntries] at hf
        cases l2 with
        | nil =>
          simp only [canonEntries, List.map_cons, List.map_nil, joinComma, renderEntry,
            List.cons_append, List.append_assoc]
          have hkey := parseKey_raw k.data (':' :: (canonChars v ++ ('\x7d' :: rest)))
            (by simpa [goodKey] using hk)
          have hval := parseP_canon fuel v ('\x7d' :: rest) hv (by omega)
            (numSafe_cons _ (by decide))
          rw [parseEntries_last hkey hval]
          simp [sortKeysEntries, stringMk_data]
        | cons f l3 =>
          simp only [canonEntries, List.map_cons, joinComma, List.cons_append,
            List.append_assoc]
          rw [show renderEntry (k, canonChars v)
            = '\"' :: (k.data ++ ('\"' :: (':' :: canonChars v))) from rfl]
          simp only [List.cons_append, List.append_assoc]
          have hkey := parseKey_raw k.data
            (':' :: (canonChars v ++ (',' ::
              (joinComma (renderEntry (f.1, canonChars f.2)
                  :: List.map renderEntry (canonEntries l3))
                ++ ('\x7d' :: rest)))))
            (by simpa [goodKey] using hk)
          have hval := parseP_canon fuel v
            (',' :: (joinComma (renderEntry (f.1, canonChars f.2)
                :: List.map renderEntry (canonEntries l3))
              ++ ('\x7d' :: rest))) hv (by omega) (numSafe_cons _ (by decide))
          have hrec := parseEntries_canon fuel (f :: l3) rest (by simp) hl2 (by
            have := fuelNeeded_pos v
            omega)
          simp only [canonEntries, List.map_cons] at hrec
          rw [parseEntries_cons hkey hval hrec]
          simp [sortKeysEntries, stringMk_data]
termination_by fuel _ _ => fuel
end

/-! ## Theorems about the claims -/

/-- C1 (code bug): the spec says an outbound call with a body carries a
`Signature` over the canonical form of that exact body, and a call with
no body carries no `Signature`.  The interceptor actually installed in
src/src/index.ts lines 295-303 attaches a `Signature` header even to a
bodiless request, its value is computed from the client id and the
private-key object with the `signPayload` arguments transposed, and it
is byte-identical for any body — while the part_001 interceptor (the
evident intent) attaches no `Signature` to a bodiless request. -/
theorem interceptor_index_signs_without_body :
    getHeader (interceptor_index rawSignDemo "client-1" (Payload.obj []) emptyConfig).headers
        "Signature" = some ("client-1" ++ ":" ++ "\x7b\x7d")
    ∧ getHeader (interceptor_index rawSignDemo "client-1" (Payload.obj []) bodyConfig).headers
        "Signature"
      = getHeader (interceptor_index rawSignDemo "client-1" (Payload.obj []) emptyConfig).headers
        "Signature"
    ∧ getHeader (interceptor_m2m rawSignDemo "client-1" "PEM" emptyConfig).headers "Signature"
      = none := by
  refine ⟨?_, ?_, ?_⟩ <;>
    simp [interceptor_index, interceptor_m2m, emptyConfig, bodyConfig, getHeader, setHeader,
      signPayload, canonicalForSign, jsonStringify, sortKeys, sortKeysEntries, sortPairs,
      stringifyChars, stringifyEntries, joinComma, rawSignDemo]

/-- C2 counterexample: the claim says an unrecognized status makes the
poller terminate immediately with a fatal UNKNOWN_STATUS error and that
it never sleeps and re-polls.  The src/src/index.ts poller, fed the
unrecognized status "BOGUS" first, sleeps, re-polls, and returns the
second response's approval (total time 1 + 5 + 1 = 7 includes the
5-unit sleep). -/
theorem pollForConsent_index_repolls_unknown_status :
    pollForConsent_sim 5 100 (fun _ => false)
      [(TokenResponse.mk "BOGUS" none none none, 1),
       (TokenResponse.mk "APPROVED" (some "https://p.example") (some "tok") none, 1)] 0 0
      = some (.approved (some "https://p.example") (some "tok"), 7)
    ∧ ("BOGUS" ∉
        (["APPROVED", "DENIED", "EXPIRED", "FAILED", "AWAITING_CONSENT", "INITIATED"] :
          List String)) := by
  exact ⟨by decide, by decide⟩

/-- C2 as amended: only the part_002 poller treats an unrecognized
status as fatal; it stops at once (no sleep, no re-poll) and throws an
error whose `status` field carries the unrecognized status verbatim
(not the literal code UNKNOWN_STATUS), while the src/src/index.ts
poller sleeps and re-polls on such statuses. -/
theorem pollStep_sdk_unknown_status_fatal (r : TokenResponse)
    (h : r.status ∉
      (["APPROVED", "AWAITING_CONSENT", "INITIATED", "DENIED", "EXPIRED", "FAILED"] :
        List String)) :
    pollStep_sdk r
      = .failure (RequestError.mk ("Received unknown request status: " ++ r.status)
          (some r.status)) := by
  simp only [List.mem_cons, List.mem_singleton, not_or] at h
  obtain ⟨h1, h2, h3, h4, h5, h6⟩ := h
  simp [pollStep_sdk, h1, h2, h3, h4, h5, h6]

/-- Witness for the amended C2 theorem at a concrete unknown status. -/
theorem pollStep_sdk_unknown_status_fatal_witness :
    ("SOMETHING_NEW" ∉
      (["APPROVED", "AWAITING_CONSENT", "INITIATED", "DENIED", "EXPIRED", "FAILED"] :
        List String))
    ∧ pollStep_sdk (TokenResponse.mk "SOMETHING_NEW" none none none)
      = .failure (RequestError.mk ("Received unknown request status: " ++ "SOMETHING_NEW")
          (some "SOMETHING_NEW")) :=
  ⟨by decide,
    pollStep_sdk_unknown_status_fatal (TokenResponse.mk "SOMETHING_NEW" none none none)
      (by decide)⟩

/-- C3 counterexample: the claim says an APPROVED response missing
`providerEndpoint` or `accessToken` raises a fatal INVALID_RESPONSE and
a success with undefined fields is never returned.  The
src/src/index.ts poller returns exactly such a success: APPROVED with
both fields absent yields a success value whose fields are both
`undefined`. -/
theorem pollStep_index_approved_missing_fields :
    pollStep_index (TokenResponse.mk "APPROVED" none none none) = .success none none := by
  decide

/-- C3 as amended: only the part_002 poller enforces the APPROVED
contract; when `providerEndpoint` or `accessToken` is missing (or
empty, which JavaScript's falsiness check also rejects) it throws the
fatal INVALID_RESPONSE error rather than returning or retrying, while
the src/src/index.ts poller returns the undefined fields as a success. -/
theorem pollStep_sdk_approved_missing_fields_invalid_response (r : TokenResponse)
    (hs : r.status = "APPROVED")
    (hmiss : (falsyOpt r.providerEndpoint || falsyOpt r.accessToken) = true) :
    pollStep_sdk r
      = .failure (RequestError.mk
          "Server approved request but did not provide token or endpoint."
          (some "INVALID_RESPONSE")) := by
  simp [pollStep_sdk, hs, hmiss]

/-- Witness for the amended C3 theorem: APPROVED with a token but no
endpoint is rejected. -/
theorem pollStep_sdk_approved_missing_fields_invalid_response_witness :
    (TokenResponse.mk "APPROVED" none (some "tok") none).status = "APPROVED"
    ∧ (falsyOpt (TokenResponse.mk "APPROVED" none (some "tok") none).providerEndpoint
        || falsyOpt (TokenResponse.mk "APPROVED" none (some "tok") none).accessToken) = true
    ∧ pollStep_sdk (TokenResponse.mk "APPROVED" none (some "tok") none)
      = .failure (RequestError.mk
          "Server approved request but did not provide token or endpoint."
          (some "INVALID_RESPONSE")) :=
  ⟨by decide, by decide,
    pollStep_sdk_approved_missing_fields_invalid_response
      (TokenResponse.mk "APPROVED" none (some "tok") none) (by decide) (by decide)⟩

/-- C4 (code bug): on DENIED the poller does stop immediately with a
typed error, but `new RequestError(data.status, data.failureReason ||
data.status)` feeds the broker status into the constructor's `message`
parameter and the human-readable reason into its `status` parameter
(errors.ts declares `constructor(message, status?)`).  So the error's
machine-readable `status` field holds "Owner declined the request" and
NOT the broker status "DENIED", which lands in `message` — a caller
branching on the error's status code reads prose. -/
theorem pollStep_index_terminal_swaps_status_and_message :
    pollStep_index (TokenResponse.mk "DENIED" none none (some "Owner declined the request"))
      = .failure (RequestError.mk "DENIED" (some "Owner declined the request"))
    ∧ (RequestError.mk "DENIED" (some "Owner declined the request")).status ≠ some "DENIED"
    ∧ (RequestError.mk "DENIED" (some "Owner declined the request")).message = "DENIED" := by
  exact ⟨by decide, by decide, by decide⟩

/-- C7 counterexample: the claim says `verifySignature` returns false
and never lets an exception escape when the public key is malformed.
The src/src/lib/utilits.ts variant has no try/catch, so when the
verifying primitive throws on unparsable key material (Node's
documented behavior, here `rawVerifyStrict` on any key other than
"valid-pem"), the exception escapes instead of a `false` return. -/
theorem verifySignature_malformed_key_exception_escapes :
    verifySignature rawVerifyStrict (.str "payload") "sig" "not-a-key" = .error ()
    ∧ (Except.error () : Except Unit Bool) ≠ .ok false := by
  exact ⟨rfl, by simp⟩

/-- C7 as amended: only the part_001 `verifySignature` (which wraps the
whole computation in try/catch) returns a boolean in every case: it
yields `true` exactly when the primitive verifies, and `false` for a
cryptographic mismatch, a malformed signature, or a throwing (malformed)
key — no exception ever escapes it. -/
theorem verifySignature_sdk_false_on_failure
    (rawVerify : String → String → String → Except Unit Bool)
    (payload : SignInput) (signature publicKeyPem : String) :
    verifySignature_sdk rawVerify payload signature publicKeyPem = true
      ↔ rawVerify publicKeyPem (canonicalForSign payload) signature = .ok true := by
  unfold verifySignature_sdk
  cases h : rawVerify publicKeyPem (canonicalForSign payload) signature with
  | ok b => cases b <;> simp
  | error e => simp

/-- C8: sign/verify round-trip.  For every payload and every key pair
on which the underlying primitives round-trip, `verifySignature`
accepts the signature `signPayload` produced, because both sides feed
the primitive the same canonical serialization
(`JSON.stringify(sortKeys(payload))`, or the raw string for a string
payload). -/
theorem signPayload_verifySignature_roundtrip
    (rawSign : String → String → String)
    (rawVerify : String → String → String → Except Unit Bool)
    (priv pub : String)
    (hkeypair : ∀ msg, rawVerify pub msg (rawSign priv msg) = .ok true)
    (payload : SignInput) :
    verifySignature rawVerify payload (signPayload rawSign payload priv) pub = .ok true :=
  hkeypair (canonicalForSign payload)

/-- Witness for C8 at a concrete key pair and payload. -/
theorem signPayload_verifySignature_roundtrip_witness :
    (∀ msg, rawVerifyDemo "PUB" msg (rawSignDemo "PRIV" msg) = .ok true)
    ∧ verifySignature rawVerifyDemo (.obj payloadDemo)
        (signPayload rawSignDemo (.obj payloadDemo) "PRIV") "PUB" = .ok true := by
  have hk : ∀ msg, rawVerifyDemo "PUB" msg (rawSignDemo "PRIV" msg) = .ok true := by
    intro msg
    simp [rawSignDemo, rawVerifyDemo]
  exact ⟨hk,
    signPayload_verifySignature_roundtrip rawSignDemo rawVerifyDemo "PRIV" "PUB" hk
      (.obj payloadDemo)⟩

/-- C9 counterexample: the claim says elapsed time is checked before
each sleep as well as before each query, and that a session never
exceeds `deadline + one round-trip`.  With deadline 10, interval 100
and a single in-flight response taking 9, the src/src/index.ts loop
checks nothing between the response and the sleep: it sleeps the full
100 at elapsed 9 and only then times out, at wall-clock 109 — far past
`deadline + round-trip = 19`. -/
theorem pollForConsent_sim_exceeds_deadline_plus_rtt :
    pollForConsent_sim 100 10 (fun _ => false)
      [(TokenResponse.mk "AWAITING_CONSENT" none none none, 9)] 0 0
      = some (.failed (RequestError.mk "TIMED_OUT" (some "User consent polling timed out")), 109)
    ∧ 10 + 9 < 109 := by
  exact ⟨by decide, by decide⟩

/-- C9 as amended: the deadline is checked only at the top of each
iteration (before the abort check and the query), not again before the
sleep; exceeding it terminates the loop with TIMED_OUT; and the total
wall-clock time of any completed run is bounded by
`deadline + one round-trip + one polling interval` (the extra interval
being exactly the unchecked trailing sleep). -/
theorem pollForConsent_sim_wall_clock_bound (interval timeout R : Nat) (aborted : Nat → Bool) :
    ∀ (script : List (TokenResponse × Nat)) (elapsed iter : Nat),
      (∀ p ∈ script, p.2 ≤ R) → elapsed ≤ timeout + R + interval →
      ∀ res t, pollForConsent_sim interval timeout aborted script elapsed iter = some (res, t) →
        t ≤ timeout + R + interval := by
  intro script
  induction script with
  | nil =>
    intro elapsed iter hR hE res t h
    unfold pollForConsent_sim at h
    by_cases hlt : elapsed < timeout
    · simp only [hlt, if_true] at h
      by_cases hab : aborted iter = true
      · simp only [hab, if_true, Option.some.injEq, Prod.mk.injEq] at h
        obtain ⟨h1, h2⟩ := h
        omega
      · simp only [hab, if_false] at h
        exact absurd h (by simp)
    · simp only [hlt, if_false, Option.some.injEq, Prod.mk.injEq] at h
      obtain ⟨h1, h2⟩ := h
      omega
  | cons hd rest ih =>
    intro elapsed iter hR hE res t h
    obtain ⟨r, rtt⟩ := hd
    have hrtt : rtt ≤ R := hR (r, rtt) (by simp)
    have hRrest : ∀ p ∈ rest, p.2 ≤ R := fun p hp => hR p (by simp [hp])
    unfold pollForConsent_sim at h
    by_cases hlt : elapsed < timeout
    · simp only [hlt, if_true] at h
      by_cases hab : aborted iter = true
      · simp only [hab, if_true, Option.some.injEq, Prod.mk.injEq] at h
        obtain ⟨h1, h2⟩ := h
        omega
      · simp only [hab, if_false] at h
        cases hstep : pollStep_index r with
        | success e tok =>
          simp only [hstep, Option.some.injEq, Prod.mk.injEq] at h
          obtain ⟨h1, h2⟩ := h
          omega
        | failure err =>
          simp only [hstep, Option.some.injEq, Prod.mk.injEq] at h
          obtain ⟨h1, h2⟩ := h
          omega
        | sleepRepoll =>
          simp only [hstep] at h
          exact ih (elapsed + rtt + interval) (iter + 1) hRrest (by omega) res t h
    · simp only [hlt, if_false, Option.some.injEq, Prod.mk.injEq] at h
      obtain ⟨h1, h2⟩ := h
      omega

/-- Witness for the amended C9 bound at a concrete script. -/
theorem pollForConsent_sim_wall_clock_bound_witness :
    (∀ p ∈ wallClockScript, p.2 ≤ 2)
    ∧ pollForConsent_sim 3 10 (fun _ => false) wallClockScript 0 0
      = some (.failed (RequestError.mk "DENIED" (some "DENIED")), 7)
    ∧ 7 ≤ 10 + 2 + 3 :=
  ⟨by decide, by decide,
    pollForConsent_sim_wall_clock_bound 3 10 2 (fun _ => false) wallClockScript 0 0
      (by decide) (by decide) (.failed (RequestError.mk "DENIED" (some "DENIED"))) 7
      (by decide)⟩

/-- C10: `createDataRequest` always sends an `expiresIn` field: an
omitted or zero `expiresIn` is replaced by 3600 (JavaScript `||`
treats 0 as falsy), and any nonzero caller value is sent unchanged. -/
theorem createDataRequestBody_expiresIn (pid oid sid : String) :
    (createDataRequestBody (CreateDataRequestParams.mk pid oid sid none)).expiresIn = 3600
    ∧ (createDataRequestBody (CreateDataRequestParams.mk pid oid sid (some 0))).expiresIn = 3600
    ∧ ∀ n : Nat, n ≠ 0 →
        (createDataRequestBody (CreateDataRequestParams.mk pid oid sid (some n))).expiresIn = n := by
  refine ⟨rfl, rfl, fun n hn => ?_⟩
  simp [createDataRequestBody, jsOrNat, hn]

/-- Witness for C10 at concrete identifiers and a nonzero expiry. -/
theorem createDataRequestBody_expiresIn_witness :
    (createDataRequestBody (CreateDataRequestParams.mk "pv" "ow" "sc" none)).expiresIn = 3600
    ∧ (createDataRequestBody (CreateDataRequestParams.mk "pv" "ow" "sc" (some 0))).expiresIn = 3600
    ∧ (createDataRequestBody (CreateDataRequestParams.mk "pv" "ow" "sc" (some 7))).expiresIn = 7 :=
  ⟨(createDataRequestBody_expiresIn "pv" "ow" "sc").1,
   (createDataRequestBody_expiresIn "pv" "ow" "sc").2.1,
   (createDataRequestBody_expiresIn "pv" "ow" "sc").2.2 7 (by decide)⟩

/-- C5: canonicalization is order-independent.  For every well-keyed
payload, permuting the insertion order of mapping keys — recursively,
in nested mappings — leaves `canonicalizeBody` byte-identical, because
every mapping is emitted with its keys sorted lexicographically. -/
theorem canonicalizeBody_key_order_invariant (p q : Payload) (hw : wellKeyed p = true)
    (he : PermEquiv p q) : canonicalizeBody p = canonicalizeBody q :=
  congrArg String.mk (canonChars_permEquiv p q hw he)

/-- Witness for C5: two renderings of one logical payload, with the
outer and the nested mapping each permuted. -/
theorem canonicalizeBody_key_order_invariant_witness :
    wellKeyed pW = true ∧ PermEquiv pW qW ∧ canonicalizeBody pW = canonicalizeBody qW := by
  have hw : wellKeyed pW = true := by
    simp [pW, wellKeyed, wellKeyedEntries, wellKeyedList, List.nodup_cons]
  have hinner : PermEquiv (Payload.obj [("d", .null), ("c", .bool true)])
      (Payload.obj [("c", .bool true), ("d", .null)]) :=
    permEquiv_obj (permEquivEntries_refl _)
      (List.Perm.swap ("c", Payload.bool true) ("d", Payload.null) [])
  have hmid : PermEquivEntries
      [("b", Payload.obj [("d", Payload.null), ("c", Payload.bool true)]),
       ("a", Payload.str "x")]
      [("b", Payload.obj [("c", Payload.bool true), ("d", Payload.null)]),
       ("a", Payload.str "x")] :=
    permEquivEntries_cons rfl hinner
      (permEquivEntries_cons rfl (permEquiv_refl _) permEquivEntries_nil)
  have he : PermEquiv pW qW :=
    permEquiv_obj hmid
      (List.Perm.swap ("a", Payload.str "x")
        ("b", Payload.obj [("c", Payload.bool true), ("d", Payload.null)]) [])
  exact ⟨hw, he, canonicalizeBody_key_order_invariant pW qW hw he⟩

/-- C6 counterexample: the claim says any two payloads differing in
some key produce different canonical bytes.  `canonicalizeBody`
interpolates mapping keys without escaping, so the single-key mapping
`pColl1` (key `a":null,"b`) renders byte-identically to the two-key
mapping `pColl2` — two payloads with different keys and identical
canonical bytes.  The offending key is exactly one rejected by
`goodKey`. -/
theorem canonicalizeBody_collision :
    canonicalizeBody pColl1 = canonicalizeBody pColl2
    ∧ objKeys pColl1 ≠ objKeys pColl2
    ∧ goodKey "a\":null,\"b" = false := by
  refine ⟨?_, ?_, ?_⟩
  · simp [pColl1, pColl2, canonicalizeBody, canonChars, canonEntries, sortPairs,
      List.insertionSort, List.orderedInsert, keyLe, renderEntry, joinComma]
  · decide
  · decide

/-- C6 as amended: canonicalization is injective on payloads whose
mapping keys are quote-free — the only restriction the counterexample
forces, since a quote in a key is what lets the raw interpolation
forge structure.  Backslash-bearing keys (read back raw up to the
first quote byte), arbitrary string scalars (escapes decoded,
including \uXXXX), numbers and array order are all covered: two such
payloads with identical canonical bytes are the same logical payload —
identical up to mapping key order, i.e. equal after `sortKeys`.
Proved by decoding the canonical bytes back with the verified reader
`parseP`. -/
theorem canonicalizeBody_injective_on_good (p q : Payload)
    (hp : goodPayload p = true) (hq : goodPayload q = true)
    (h : canonicalizeBody p = canonicalizeBody q) : sortKeys p = sortKeys q := by
  have hchars : canonChars p = canonChars q := by
    have hdata := congrArg String.data h
    simpa [canonicalizeBody] using hdata
  have h1 := parseP_canon (max (fuelNeeded p) (fuelNeeded q)) p [] hp (le_max_left _ _) rfl
  have h2 := parseP_canon (max (fuelNeeded p) (fuelNeeded q)) q [] hq (le_max_right _ _) rfl
  rw [List.append_nil] at h1 h2
  rw [hchars, h2] at h1
  simp only [Option.some.injEq, Prod.mk.injEq, and_true] at h1
  exact h1.symm

/-- Witness for the amended C6 at two concrete good payloads. -/
theorem canonicalizeBody_injective_on_good_witness :
    goodPayload pInj = true ∧ goodPayload qInj = true
    ∧ canonicalizeBody pInj = canonicalizeBody qInj
    ∧ sortKeys pInj = sortKeys qInj := by
  have h1 : goodPayload pInj = true := by
    simp [pInj, goodPayload, goodPayloadEntries, goodKey, goodKeyChar]
  have h2 : goodPayload qInj = true := by
    simp [qInj, goodPayload, goodPayloadEntries, goodKey, goodKeyChar]
  have h3 : canonicalizeBody pInj = canonicalizeBody qInj := by
    simp [pInj, qInj, canonicalizeBody, canonChars, canonEntries, sortPairs,
      List.insertionSort, List.orderedInsert, keyLe, renderEntry, joinComma, quoteChars,
      escapeList, escapeChar]
  exact ⟨h1, h2, h3, canonicalizeBody_injective_on_good pInj qInj h1 h2 h3⟩
